import Mathlib

/-!
Shallow embedding of the Pilot-Weather client logic (a React/TypeScript
weather-briefing dashboard) and proofs about it.

Conventions of the embedding:
* JavaScript strings are Lean `String`s; `toUpperCase` is mapped character-wise
  ASCII uppercasing, `includes` is substring containment on the character list.
* JavaScript timestamps (`Date.getTime()` in milliseconds) are `Int`.
* A value that may be `null`/`undefined` at runtime is an `Option`.
* JavaScript's falsiness test on a string field (`!m.raw_text`) is
  "missing or empty".
-/

/-- Character-wise uppercasing, the embedding of `String.prototype.toUpperCase`
on the ASCII text the client handles. -/
def jsUpper (s : String) : String := ⟨s.data.map Char.toUpper⟩

/-- `pat` occurs at the start of `l`. -/
def startsWithChars : List Char → List Char → Bool
  | [], _ => true
  | _ :: _, [] => false
  | a :: as, b :: bs => (a == b) && startsWithChars (a :: as).tail (b :: bs).tail

/-- `pat` occurs somewhere in `hay` (the embedding of
`String.prototype.includes` on the underlying characters). -/
def containsChars (pat : List Char) : List Char → Bool
  | [] => pat.isEmpty
  | c :: cs => startsWithChars pat (c :: cs) || containsChars pat cs

/-- Substring containment, the embedding of `String.prototype.includes`. -/
def containsSub (hay pat : String) : Bool := containsChars pat.data hay.data

/-- A METAR row as the client receives it (`{ station, raw_text }`); `raw_text`
is optional because the runtime JSON may omit it and the code guards for that. -/
structure Metar where
  station : String
  raw_text : Option String
  deriving Repr, DecidableEq

/-- `MapPage.tsx` `hasThunderstorm`: false when the METAR or its `raw_text` is
falsy, otherwise checks the uppercased raw text for "TS", "THUNDERSTORM" or
"TEMPO". -/
def hasThunderstorm (m : Option Metar) : Bool :=
  match m with
  | none => false
  | some mt =>
    match mt.raw_text with
    | none => false
    | some raw =>
      if raw = "" then false
      else
        containsSub (jsUpper raw) "TS" || containsSub (jsUpper raw) "THUNDERSTORM" ||
          containsSub (jsUpper raw) "TEMPO"

/-- The indicator list of the flight-detail view's `hasThunderstorm`. -/
def thunderstormIndicators : List String :=
  ["TS", "THUNDERSTORM", "TEMPO", "TSRA", "TSSN", "TSGR", "TSGS",
   "CB", "TCU", "FC", "TORNADO", "WATERSPOUT"]

/-- The flight-detail view's `hasThunderstorm`: same falsiness guard, then
`indicators.some (ind => rawText.includes(ind))` over the twelve indicators. -/
def hasThunderstormDetail (m : Option Metar) : Bool :=
  match m with
  | none => false
  | some mt =>
    match mt.raw_text with
    | none => false
    | some raw =>
      if raw = "" then false
      else
        thunderstormIndicators.any (fun ind => containsSub (jsUpper raw) ind)

/-- The trigonometric primitives the polygon generator calls (`Math.cos`,
`Math.sin`, `Math.PI`). The generator's algebra is embedded exactly over ℚ
with these left abstract, since the source computes them in floating point. -/
structure TrigOps where
  cos : ℚ → ℚ
  sin : ℚ → ℚ
  pi : ℚ

/-- One iteration of the loop body of `generateThunderstormPolygon`
(`MapPage.tsx`): angle `i*360/numPoints` degrees, converted to radians, then
the lat/lon offsets from the km-to-degree approximation. -/
def polygonPoint (T : TrigOps) (lat lon radiusKm : ℚ) (i : ℕ) : ℚ × ℚ :=
  let angle : ℚ := ((i : ℚ) * 360) / 12
  let radians : ℚ := angle * T.pi / 180
  let latOffset : ℚ := radiusKm / 111 * T.cos radians
  let lonOffset : ℚ := radiusKm / (111 * T.cos (lat * T.pi / 180)) * T.sin radians
  (lat + latOffset, lon + lonOffset)

/-- The `for (let i = 0; i < numPoints; i++) points.push(...)` loop,
unrolled over the remaining iteration count. -/
def polygonLoop (T : TrigOps) (lat lon radiusKm : ℚ) : ℕ → ℕ → List (ℚ × ℚ)
  | _, 0 => []
  | i, n + 1 => polygonPoint T lat lon radiusKm i :: polygonLoop T lat lon radiusKm (i + 1) n

/-- `MapPage.tsx` `generateThunderstormPolygon`: twelve points around
`(lat, lon)`, no error branch. -/
def generateThunderstormPolygon (T : TrigOps) (lat lon : ℚ) (radiusKm : ℚ) : List (ℚ × ℚ) :=
  polygonLoop T lat lon radiusKm 0 12

/-- A row of the `flights` table as the dashboard selects it. `planned_at` is
the parsed timestamp in milliseconds (`none` for a null or unparsable value). -/
structure FlightRow where
  id : String
  user_id : String
  departure : String
  arrival : String
  intermediates : Option (List String)
  planned_at : Option Int
  created_at : Int
  deriving Repr, DecidableEq

/-- `new Date(f.planned_at).getTime()` on a row known to carry a time (the
fatigue scan only reads it after filtering such rows). -/
def plannedTime (f : FlightRow) : Int := f.planned_at.getD 0

/-- The filter `f.planned_at && new Date(f.planned_at) > new Date()`:
a planned time exists and lies strictly in the future. -/
def isFutureFlight (now : Int) (f : FlightRow) : Bool :=
  match f.planned_at with
  | some t => decide (now < t)
  | none => false

/-- Insert a row into a list already sorted by planned time, before the first
row with an equal-or-later time (so the overall sort is stable and
ascending, matching `Array.prototype.sort` with the getTime comparator). -/
def insertByPlanned (r : FlightRow) : List FlightRow → List FlightRow
  | [] => [r]
  | x :: xs =>
    if plannedTime r ≤ plannedTime x then r :: x :: xs
    else x :: insertByPlanned r xs

/-- Stable ascending sort by planned time, the embedding of
`upcomingFlights.sort((a, b) => timeA - timeB)`. -/
def sortByPlanned (l : List FlightRow) : List FlightRow :=
  l.foldr insertByPlanned []

/-- 48 hours in milliseconds: the threshold `hoursDifference <= 48` of the
fatigue scan, cleared of the float division by `1000*60*60`. -/
def fatigueWindowMs : Int := 48 * 60 * 60 * 1000

/-- The `for` loop of `detectFatigueWarnings`: walk adjacent pairs of the
sorted list and collect the id of the later flight of every pair at most 48
hours apart. -/
def adjacentFatigue : List FlightRow → List String
  | a :: b :: rest =>
    (if plannedTime b - plannedTime a ≤ fatigueWindowMs then [b.id] else []) ++
      adjacentFatigue (b :: rest)
  | _ => []

/-- `Dashboard.tsx` `detectFatigueWarnings`: filter to strictly-future
flights, sort ascending by planned time, collect ids of flights whose
predecessor is at most 48 hours earlier. -/
def detectFatigueWarnings (now : Int) (flights : List FlightRow) : List String :=
  adjacentFatigue (sortByPlanned (flights.filter (isFutureFlight now)))

/-- One rendered entry of the Weather Hazards card: an alert icon plus the
hazard text. -/
structure HazardItem where
  icon : String
  text : String
  deriving Repr, DecidableEq

/-- The hazards block of the Dashboard briefing rendering:
`briefing.hazards && briefing.hazards.length > 0 && <Card>…hazards.map(…)</Card>`;
`none` means the Weather Hazards section is not rendered at all. -/
def renderHazardsSection (hazards : Option (List String)) : Option (List HazardItem) :=
  match hazards with
  | none => none
  | some hs =>
    if 0 < hs.length then some (hs.map fun h => ⟨"AlertTriangle", h⟩)
    else none

/-- Whitespace as JavaScript's `trim` and `\s` see it on the client's
ASCII input. -/
def isJsSpace (c : Char) : Bool :=
  c = ' ' || c = '\t' || c = '\n' || c = '\r' || c = '\x0b' || c = '\x0c'

/-- `String.prototype.trim` on the underlying characters. -/
def trimChars (s : List Char) : List Char :=
  ((s.dropWhile isJsSpace).reverse.dropWhile isJsSpace).reverse

/-- `String.prototype.trim`. -/
def jsTrim (s : String) : String := ⟨trimChars s.data⟩

/-- The client's `value.trim().toUpperCase()` normalization. -/
def trimUpper (s : String) : String := jsUpper (jsTrim s)

/-- An airport row returned by the backend search endpoint. -/
structure Airport where
  icao : String
  name : String
  deriving Repr, DecidableEq

/-- The `AirportAutocomplete` validity effect: when the entered value has at
least 3 characters, valid iff some returned airport's ICAO matches it
case-insensitively and exactly; otherwise invalid. -/
def autocompleteValid (value : String) (airports : List Airport) : Bool :=
  if 3 ≤ value.length then
    airports.any fun a => jsUpper a.icao == jsUpper value
  else false

/-- The component state `saveFlight` reads: the signed-in user (if any), the
three route fields, the planned-time string, and the backend search results
currently backing the departure/arrival autocomplete validity flags. -/
structure SaveFlightState where
  user : Option String
  departure : String
  arrival : String
  intermediates : List String
  plannedAt : String
  depAirports : List Airport
  arrAirports : List Airport
  deriving Repr, DecidableEq

/-- The row `saveFlight` inserts into the `flights` table. -/
structure FlightPayload where
  user_id : String
  departure : String
  arrival : String
  intermediates : Option (List String)
  planned_at : String
  deriving Repr, DecidableEq

/-- What one invocation of `saveFlight` does: either it shows a toast (with
the given title) and performs no insert, or it inserts the payload. -/
inductive SaveOutcome where
  | rejected (toastTitle : String)
  | inserted (payload : FlightPayload)
  deriving Repr, DecidableEq

/-- `Dashboard.tsx` `saveFlight`: the guard chain (signed in; trimmed
uppercased departure/arrival non-empty; both autocomplete validity flags set;
planned time set) and the insert payload it builds. -/
def saveFlight (s : SaveFlightState) : SaveOutcome :=
  match s.user with
  | none => .rejected "Sign in required"
  | some uid =>
    let dep := trimUpper s.departure
    let arr := trimUpper s.arrival
    let mids := (s.intermediates.map trimUpper).filter fun m => !(m == "")
    if (dep == "") || (arr == "") then .rejected "Missing fields"
    else if !(autocompleteValid s.departure s.depAirports &&
        autocompleteValid s.arrival s.arrAirports) then .rejected "Invalid airports"
    else if s.plannedAt == "" then .rejected "Missing time"
    else .inserted ⟨uid, dep, arr, if mids.isEmpty then none else some mids, s.plannedAt⟩

def isInserted : SaveOutcome → Bool
  | .inserted _ => true
  | .rejected _ => false

def toastOf : SaveOutcome → Option String
  | .rejected t => some t
  | .inserted _ => none

/-- Effect of a `saveFlight` outcome on the persisted flights: an insert
appends the payload, a rejection leaves the store untouched. -/
def applyOutcome (o : SaveOutcome) (store : List FlightPayload) : List FlightPayload :=
  match o with
  | .inserted p => store ++ [p]
  | .rejected _ => store

/-- The partition test of `reloadFlights`:
`when && when.getTime() >= now.getTime()` — a planned time exists and is at
or after the current time. -/
def isUpcomingRow (now : Int) (r : FlightRow) : Bool :=
  match r.planned_at with
  | some t => decide (now ≤ t)
  | none => false

/-- The `forEach` of `reloadFlights` pushing each fetched row onto either the
`upcoming` or the `past` accumulator, preserving fetched order. -/
def splitFlights (now : Int) : List FlightRow → List FlightRow × List FlightRow
  | [] => ([], [])
  | r :: rs =>
    let rest := splitFlights now rs
    if isUpcomingRow now r then (r :: rest.1, rest.2) else (rest.1, r :: rest.2)

/-- `Dashboard.tsx` `reloadFlights` on the fetched rows: the upcoming list in
fetched order, the past list reversed (`setPastFlights(past.reverse())`). -/
def reloadFlightsLists (now : Int) (rows : List FlightRow) :
    List FlightRow × List FlightRow :=
  let s := splitFlights now rows
  (s.1, s.2.reverse)

/-- A request shape the hosted-store client can issue against a table.
`updateRow` is expressible in that client API; the frame theorem shows no
client code path produces it. -/
inductive StoreOp where
  | select (table : String) (filterDesc : String)
  | insert (table : String) (payload : FlightPayload)
  | deleteRow (table : String) (rowId : String)
  | updateRow (table : String) (rowId : String)
  deriving Repr, DecidableEq

def isStoreMutation : StoreOp → Bool
  | .select _ _ => false
  | .insert _ _ => true
  | .deleteRow _ _ => true
  | .updateRow _ _ => true

/-- An HTTP request to the briefing backend. -/
structure HttpRequest where
  method : String
  url : String
  deriving Repr, DecidableEq

/-- Store trace of `Dashboard.reloadFlights`: one select of the user's rows. -/
def reloadFlightsOps (uid : String) : List StoreOp := [.select "flights" uid]

/-- Store trace of one `Dashboard.saveFlight` invocation: the insert when the
guards pass, nothing otherwise. -/
def saveFlightOps (s : SaveFlightState) : List StoreOp :=
  match saveFlight s with
  | .inserted p => [.insert "flights" p]
  | .rejected _ => []

/-- Store trace of `Dashboard.deleteFlight`: one delete by id. -/
def deleteFlightOps (rowId : String) : List StoreOp := [.deleteRow "flights" rowId]

/-- Store trace of the flight-detail loader: one select by id. -/
def flightDetailLoadOps (rowId : String) : List StoreOp := [.select "flights" rowId]

/-- Store trace of one `FlightDetail.fetchBriefing` invocation: it touches the
store not at all. -/
def fetchBriefingStoreOps : List StoreOp := []

/-- HTTP trace of one `FlightDetail.fetchBriefing` invocation: a fresh POST to
the analyze-route backend every time. -/
def fetchBriefingHttp : List HttpRequest :=
  [⟨"POST", "http://localhost:8000/analyze-route"⟩]

/-- The flights-store operations of every client code path that touches the
store: `reloadFlights`, `saveFlight`, `deleteFlight`, the flight-detail
loader, and `fetchBriefing` (the only store call sites in the client). -/
def clientStoreOps (s : SaveFlightState) (uid delId detailId : String) :
    List StoreOp :=
  reloadFlightsOps uid ++ saveFlightOps s ++ deleteFlightOps delId ++
    flightDetailLoadOps detailId ++ fetchBriefingStoreOps

/-- A toast entry of the `useToast` queue. -/
structure Toast where
  id : String
  title : Option String
  description : Option String
  variant : Option String
  deriving Repr, DecidableEq

/-- A pending browser timer created by `Toaster.tsx`: the 3000 ms auto-dismiss
timer the effect schedules per toast, or the 300 ms removal timer scheduled
when a toast starts sliding out. -/
inductive ToastTimer where
  | auto (toastId : String)
  | removal (toastId : String)
  deriving Repr, DecidableEq

/-- The delay each timer was scheduled with (`setTimeout(..., 3000)` and
`setTimeout(..., 300)`). -/
def timerDelayMs : ToastTimer → ℕ
  | .auto _ => 3000
  | .removal _ => 300

/-- The Toaster's observable state: the toast queue, the ids marked as
dismissing, the pending timers, and the `timers` array the current effect's
cleanup closure captured. -/
structure ToasterState where
  toasts : List Toast
  dismissing : List String
  pending : List ToastTimer
  effectTimers : List ToastTimer
  deriving Repr, DecidableEq

/-- The effect body `toasts.map(t => setTimeout(..., 3000))`: schedule one
auto timer per toast and remember exactly those in `timers`. -/
def runToasterEffect (s : ToasterState) : ToasterState :=
  let timers := s.toasts.map fun t => ToastTimer.auto t.id
  ⟨s.toasts, s.dismissing, s.pending ++ timers, timers⟩

/-- The effect cleanup `timers.forEach(clearTimeout)`: cancel the timers the
effect recorded — and only those. -/
def runToasterCleanup (s : ToasterState) : ToasterState :=
  ⟨s.toasts, s.dismissing,
    s.pending.filter fun tm => !(decide (tm ∈ s.effectTimers)), []⟩

/-- A pending 3000 ms auto timer fires: mark the toast as dismissing and
schedule `dismiss(t.id)` 300 ms later. -/
def fireAutoTimer (s : ToasterState) (tid : String) : ToasterState :=
  ⟨s.toasts, tid :: s.dismissing,
    (s.pending.erase (ToastTimer.auto tid)) ++ [ToastTimer.removal tid],
    s.effectTimers⟩

/-- A pending 300 ms removal timer fires: `dismiss(tid)` removes the toast
from the queue. -/
def fireRemovalTimer (s : ToasterState) (tid : String) : ToasterState :=
  ⟨s.toasts.filter fun t => !(t.id == tid), s.dismissing,
    s.pending.erase (ToastTimer.removal tid), s.effectTimers⟩

/-- `handleDismiss`: manual dismissal marks the toast as dismissing and
schedules the same 300 ms removal timer. -/
def handleDismiss (s : ToasterState) (tid : String) : ToasterState :=
  ⟨s.toasts, tid :: s.dismissing, s.pending ++ [ToastTimer.removal tid],
    s.effectTimers⟩

mutual

/-- `String.prototype.split(/\s+/)` on the characters: accumulate the current
token (reversed) until a whitespace run, emit, and continue. An input
starting with whitespace yields a leading empty token, as in JavaScript. -/
def splitWsGo : List Char → List Char → List (List Char)
  | [], acc => [acc.reverse]
  | c :: cs, acc =>
    if isJsSpace c then acc.reverse :: splitWsSkip cs
    else splitWsGo cs (c :: acc)

/-- The state inside a whitespace run of `split(/\s+/)`: skip the rest of the
run, then start a fresh token (a trailing run yields a final empty token). -/
def splitWsSkip : List Char → List (List Char)
  | [] => [[]]
  | c :: cs => if isJsSpace c then splitWsSkip cs else splitWsGo cs [c]

end

/-- `Array.prototype.join(" ")` on the characters of the tokens. -/
def joinSpace : List (List Char) → List Char
  | [] => []
  | [t] => t
  | t :: ts => t ++ ' ' :: joinSpace ts

/-- `String.prototype.split(/\s+/)`. -/
def jsSplitWs (s : String) : List String :=
  (splitWsGo s.data []).map fun l => (⟨l⟩ : String)

/-- `FlightDetail.tsx` route-parameter parsing: trim the `route` search
parameter, split on whitespace runs; the first token is the departure, the
last the arrival, the tokens between are the intermediates
(`parts.slice(1, -1)`). -/
def parseRouteParam (routeParam : String) : String × List String × String :=
  let parts := jsSplitWs (jsTrim routeParam)
  (parts.headD "", (parts.drop 1).dropLast, parts.getLastD "")

/-- `Dashboard.tsx` `briefFromFlight` route encoding:
`[f.departure, ...(f.intermediates || []), f.arrival].filter(Boolean).join(" ")`. -/
def encodeRoute (departure : String) (intermediates : List String)
    (arrival : String) : String :=
  ⟨joinSpace ((((departure :: intermediates) ++ [arrival]).filter
      fun t => !(t == "")).map String.data)⟩

/-- C2: the map page's `hasThunderstorm` returns true iff the METAR is present,
its `raw_text` is present, and the uppercased raw text contains "TS",
"THUNDERSTORM" or "TEMPO"; in every other case it returns false. -/
theorem hasThunderstorm_iff (m : Option Metar) :
    hasThunderstorm m = true ↔
      ∃ mt raw, m = some mt ∧ mt.raw_text = some raw ∧
        (containsSub (jsUpper raw) "TS" = true ∨
         containsSub (jsUpper raw) "THUNDERSTORM" = true ∨
         containsSub (jsUpper raw) "TEMPO" = true) := by
  constructor
  · intro h
    match m with
    | none => simp [hasThunderstorm] at h
    | some mt =>
      match hraw : mt.raw_text with
      | none => simp [hasThunderstorm, hraw] at h
      | some raw =>
        refine ⟨mt, raw, rfl, hraw, ?_⟩
        by_cases he : raw = ""
        · simp [hasThunderstorm, hraw, he] at h
        · simp only [hasThunderstorm, hraw, he, if_false, if_neg he,
            Bool.or_eq_true] at h
          tauto
  · rintro ⟨mt, raw, rfl, hraw, h⟩
    have hne : raw ≠ "" := by
      intro hr
      subst hr
      rcases h with h | h | h <;> simp [containsSub, containsChars, jsUpper] at h
    simp only [hasThunderstorm, hraw, if_neg hne, Bool.or_eq_true]
    tauto

/-- C3 counterexample: the two thunderstorm detectors disagree on the METAR
raw text "FEW030CB" (a cumulonimbus cloud report): the map page sees none of
its three indicators while the detail view matches "CB". -/
theorem hasThunderstorm_ne_detail_at_CB :
    hasThunderstorm (some ⟨"VABB", some "FEW030CB"⟩) = false ∧
      hasThunderstormDetail (some ⟨"VABB", some "FEW030CB"⟩) = true := by
  constructor <;> decide

/-- C3 (amended): the detail view's detector refines the map page's: whenever
the map page's `hasThunderstorm` reports a thunderstorm, so does the
flight-detail `hasThunderstorm` (its indicator list contains the map page's
three indicators); the converse fails. -/
theorem hasThunderstorm_le_detail (m : Option Metar)
    (h : hasThunderstorm m = true) : hasThunderstormDetail m = true := by
  match m with
  | none => simp [hasThunderstorm] at h
  | some mt =>
    match hraw : mt.raw_text with
    | none => simp [hasThunderstorm, hraw] at h
    | some raw =>
      by_cases he : raw = ""
      · simp [hasThunderstorm, hraw, he] at h
      · simp only [hasThunderstorm, hraw, if_neg he, Bool.or_eq_true] at h
        simp only [hasThunderstormDetail, hraw, if_neg he,
          thunderstormIndicators, List.any_cons, List.any_nil,
          Bool.or_eq_true]
        tauto

/-- C3 witness: a METAR whose raw text is "TSRA": the map page detects it
(contains "TS"), and by the theorem so does the detail view. -/
theorem hasThunderstorm_le_detail_witness :
    hasThunderstorm (some ⟨"KJFK", some "TSRA"⟩) = true ∧
      hasThunderstormDetail (some ⟨"KJFK", some "TSRA"⟩) = true :=
  ⟨by decide, hasThunderstorm_le_detail (some ⟨"KJFK", some "TSRA"⟩) (by decide)⟩

/-- C4: for every latitude, longitude and radius, the polygon generator
totally returns exactly 12 points, the i-th being
`(lat + (radiusKm/111)·cos θᵢ, lon + (radiusKm/(111·cos(lat·π/180)))·sin θᵢ)`
with `θᵢ = (i·360/12)` degrees converted to radians. -/
theorem generateThunderstormPolygon_eq (T : TrigOps) (lat lon radiusKm : ℚ) :
    (generateThunderstormPolygon T lat lon radiusKm).length = 12 ∧
      generateThunderstormPolygon T lat lon radiusKm =
        (List.range 12).map (fun i =>
          (lat + radiusKm / 111 * T.cos ((i : ℚ) * 360 / 12 * T.pi / 180),
           lon + radiusKm / (111 * T.cos (lat * T.pi / 180)) *
             T.sin ((i : ℚ) * 360 / 12 * T.pi / 180))) :=
  ⟨rfl, rfl⟩

lemma mem_insertByPlanned (r y : FlightRow) (l : List FlightRow) :
    y ∈ insertByPlanned r l ↔ y = r ∨ y ∈ l := by
  induction l with
  | nil => simp [insertByPlanned]
  | cons x xs ih =>
    by_cases hc : plannedTime r ≤ plannedTime x
    · simp [insertByPlanned, hc]
    · simp only [insertByPlanned, if_neg hc, List.mem_cons, ih]
      tauto

lemma insertByPlanned_perm (r : FlightRow) (l : List FlightRow) :
    (insertByPlanned r l).Perm (r :: l) := by
  induction l with
  | nil => simp [insertByPlanned]
  | cons x xs ih =>
    by_cases hc : plannedTime r ≤ plannedTime x
    · simp [insertByPlanned, hc]
    · rw [insertByPlanned, if_neg hc]
      exact (ih.cons x).trans (List.Perm.swap r x xs)

lemma pairwise_insertByPlanned (r : FlightRow) (l : List FlightRow)
    (h : l.Pairwise fun a b => plannedTime a ≤ plannedTime b) :
    (insertByPlanned r l).Pairwise fun a b => plannedTime a ≤ plannedTime b := by
  induction l with
  | nil => simp [insertByPlanned]
  | cons x xs ih =>
    rw [List.pairwise_cons] at h
    by_cases hc : plannedTime r ≤ plannedTime x
    · rw [insertByPlanned, if_pos hc]
      refine List.pairwise_cons.mpr ⟨?_, List.pairwise_cons.mpr h⟩
      intro y hy
      rcases List.mem_cons.mp hy with rfl | hy'
      · exact hc
      · exact le_trans hc (h.1 y hy')
    · rw [insertByPlanned, if_neg hc]
      refine List.pairwise_cons.mpr ⟨?_, ih h.2⟩
      intro y hy
      rcases (mem_insertByPlanned r y xs).mp hy with rfl | hy'
      · exact le_of_lt (lt_of_not_le hc)
      · exact h.1 y hy'

lemma sortByPlanned_pairwise (l : List FlightRow) :
    (sortByPlanned l).Pairwise fun a b => plannedTime a ≤ plannedTime b := by
  induction l with
  | nil => simp [sortByPlanned]
  | cons x xs ih => exact pairwise_insertByPlanned x _ ih

lemma sortByPlanned_perm (l : List FlightRow) : (sortByPlanned l).Perm l := by
  induction l with
  | nil => simp [sortByPlanned]
  | cons x xs ih =>
    exact (insertByPlanned_perm x (sortByPlanned xs)).trans (ih.cons x)

lemma mem_adjacentFatigue (l : List FlightRow) (x : String) :
    x ∈ adjacentFatigue l ↔
      ∃ i : ℕ, ∃ b a : FlightRow, l[i + 1]? = some b ∧ l[i]? = some a ∧
        b.id = x ∧ plannedTime b - plannedTime a ≤ fatigueWindowMs := by
  induction l with
  | nil => simp [adjacentFatigue]
  | cons p ps ih =>
    cases ps with
    | nil => simp [adjacentFatigue]
    | cons q qs =>
      have hl : adjacentFatigue (p :: q :: qs) =
          (if plannedTime q - plannedTime p ≤ fatigueWindowMs then [q.id] else []) ++
            adjacentFatigue (q :: qs) := rfl
      rw [hl]
      constructor
      · intro hmem
        rcases List.mem_append.mp hmem with hin | hin
        · by_cases hc : plannedTime q - plannedTime p ≤ fatigueWindowMs
          · rw [if_pos hc] at hin
            rcases List.mem_singleton.mp hin with rfl
            exact ⟨0, q, p, by simp, by simp, rfl, hc⟩
          · rw [if_neg hc] at hin
            exact absurd hin (List.not_mem_nil x)
        · obtain ⟨j, b, a, h1, h2, h3, h4⟩ := ih.mp hin
          exact ⟨j + 1, b, a, by simpa using h1, by simpa using h2, h3, h4⟩
      · rintro ⟨i, b, a, h1, h2, h3, h4⟩
        cases i with
        | zero =>
          simp only [List.getElem?_cons_succ, List.getElem?_cons_zero,
            Option.some.injEq] at h1 h2
          subst h1
          subst h2
          refine List.mem_append.mpr (Or.inl ?_)
          rw [if_pos h4]
          exact h3 ▸ List.mem_singleton.mpr rfl
        | succ j =>
          exact List.mem_append.mpr
            (Or.inr (ih.mpr ⟨j, b, a, by simpa using h1, by simpa using h2, h3, h4⟩))

/-- C1: `detectFatigueWarnings` returns exactly the ids of flights that, after
restricting to flights strictly in the future and sorting ascending by
planned time (the sorted list is pairwise ordered and a permutation of the
filtered rows), have an immediately preceding flight at most 48 hours
earlier. -/
theorem detectFatigueWarnings_spec (now : Int) (flights : List FlightRow) :
    (sortByPlanned (flights.filter (isFutureFlight now))).Pairwise
        (fun a b => plannedTime a ≤ plannedTime b) ∧
      (sortByPlanned (flights.filter (isFutureFlight now))).Perm
        (flights.filter (isFutureFlight now)) ∧
      ∀ x : String,
        (x ∈ detectFatigueWarnings now flights ↔
          ∃ i : ℕ, ∃ b a : FlightRow,
            (sortByPlanned (flights.filter (isFutureFlight now)))[i + 1]? = some b ∧
            (sortByPlanned (flights.filter (isFutureFlight now)))[i]? = some a ∧
            b.id = x ∧ plannedTime b - plannedTime a ≤ fatigueWindowMs) :=
  ⟨sortByPlanned_pairwise _, sortByPlanned_perm _,
    fun x => mem_adjacentFatigue _ x⟩

/-- C5: with a non-empty hazards list the Weather Hazards section renders
exactly one item per hazard string, in order, each displaying that string;
with an absent or empty hazards list no section is rendered. -/
theorem renderHazardsSection_spec (hz : Option (List String)) (hs : List String) :
    (hz = some hs → hs ≠ [] →
      ∃ items, renderHazardsSection hz = some items ∧
        items.map HazardItem.text = hs) ∧
      ((hz = none ∨ hz = some []) → renderHazardsSection hz = none) := by
  constructor
  · rintro rfl hne
    refine ⟨hs.map fun h => ⟨"AlertTriangle", h⟩, ?_, ?_⟩
    · simp [renderHazardsSection, List.length_pos.mpr hne]
    · have hcomp : (HazardItem.text ∘ fun h => (⟨"AlertTriangle", h⟩ : HazardItem)) =
        fun h => h := rfl
      simp [List.map_map, hcomp]
  · rintro (rfl | rfl) <;> simp [renderHazardsSection]

/-- C5 witness: a singleton hazards list renders a section. -/
theorem renderHazardsSection_spec_witness :
    (renderHazardsSection (some ["Severe turbulence en route"])).isSome = true := by
  obtain ⟨items, hit, -⟩ :=
    (renderHazardsSection_spec (some ["Severe turbulence en route"])
      ["Severe turbulence en route"]).1 rfl (by decide)
  rw [hit]
  rfl

lemma autocompleteValid_eq (value : String) (airports : List Airport) :
    autocompleteValid value airports =
      (decide (3 ≤ value.length) &&
        airports.any fun a => jsUpper a.icao == jsUpper value) := by
  by_cases h : 3 ≤ value.length <;> simp [autocompleteValid, h]

/-- C6: `saveFlight` inserts exactly when a user is signed in, the trimmed
uppercased departure and arrival are non-empty, both fields pass the
autocomplete lookup (≥ 3 characters and an exact case-insensitive ICAO
match among the backend results), and a planned time is set; otherwise the
outcome is a toast and the persisted flights are unchanged. -/
theorem saveFlight_guard (s : SaveFlightState) (store : List FlightPayload) :
    isInserted (saveFlight s) =
        (s.user.isSome && !(trimUpper s.departure == "") &&
          !(trimUpper s.arrival == "") &&
          (decide (3 ≤ s.departure.length) &&
            s.depAirports.any fun a => jsUpper a.icao == jsUpper s.departure) &&
          (decide (3 ≤ s.arrival.length) &&
            s.arrAirports.any fun a => jsUpper a.icao == jsUpper s.arrival) &&
          !(s.plannedAt == "")) ∧
      (isInserted (saveFlight s) = false →
        (toastOf (saveFlight s)).isSome = true ∧
          applyOutcome (saveFlight s) store = store) := by
  obtain ⟨u, dep, arr, mids, pa, da, aa⟩ := s
  rw [← autocompleteValid_eq dep da, ← autocompleteValid_eq arr aa]
  cases u with
  | none => simp [saveFlight, isInserted, toastOf, applyOutcome]
  | some uid =>
    by_cases h1 : trimUpper dep = ""
    case pos =>
      simp [saveFlight, isInserted, toastOf, applyOutcome, h1]
    case neg =>
      by_cases h2 : trimUpper arr = ""
      case pos =>
        simp [saveFlight, isInserted, toastOf, applyOutcome, h1, h2]
      case neg =>
        cases h3 : autocompleteValid dep da <;>
          cases h4 : autocompleteValid arr aa <;>
          by_cases h5 : pa = "" <;>
          simp [saveFlight, isInserted, toastOf, applyOutcome, h1, h2, h3, h4, h5]

/-- C6 witness: with no signed-in user the save is rejected with a toast and
an arbitrary store is unchanged. -/
theorem saveFlight_guard_witness :
    (toastOf (saveFlight ⟨none, "KJFK", "KLAX", [], "2030-01-01T10:00", [], []⟩)).isSome =
        true ∧
      applyOutcome (saveFlight ⟨none, "KJFK", "KLAX", [], "2030-01-01T10:00", [], []⟩)
          [] = [] :=
  (saveFlight_guard ⟨none, "KJFK", "KLAX", [], "2030-01-01T10:00", [], []⟩ []).2
    (by decide)

lemma splitFlights_eq (now : Int) (rows : List FlightRow) :
    splitFlights now rows =
      (rows.filter (isUpcomingRow now),
        rows.filter fun r => !(isUpcomingRow now r)) := by
  induction rows with
  | nil => simp [splitFlights]
  | cons r rs ih =>
    cases hr : isUpcomingRow now r <;>
      simp [splitFlights, hr, ih, List.filter_cons]

/-- C10: `reloadFlights` partitions the fetched rows: the upcoming list is
exactly the rows whose planned time is at or after now (in fetched order),
the past list is exactly the remaining rows (those earlier than now or with
no planned time) in reverse fetched order; the two lists are disjoint and
together are a permutation of all fetched rows. -/
theorem reloadFlights_partition (now : Int) (rows : List FlightRow) :
    (reloadFlightsLists now rows).1 = rows.filter (isUpcomingRow now) ∧
      (reloadFlightsLists now rows).2 =
        (rows.filter fun r => !(isUpcomingRow now r)).reverse ∧
      (∀ r : FlightRow, r ∈ (reloadFlightsLists now rows).1 →
        r ∉ (reloadFlightsLists now rows).2) ∧
      ((reloadFlightsLists now rows).1 ++
          (reloadFlightsLists now rows).2.reverse).Perm rows := by
  have h1 : (reloadFlightsLists now rows).1 = rows.filter (isUpcomingRow now) := by
    simp [reloadFlightsLists, splitFlights_eq]
  have h2 : (reloadFlightsLists now rows).2 =
      (rows.filter fun r => !(isUpcomingRow now r)).reverse := by
    simp [reloadFlightsLists, splitFlights_eq]
  refine ⟨h1, h2, ?_, ?_⟩
  · intro r hu hp
    rw [h1] at hu
    rw [h2] at hp
    have hu' := (List.mem_filter.mp hu).2
    have hp' := (List.mem_filter.mp (List.mem_reverse.mp hp)).2
    rw [hu'] at hp'
    simp at hp'
  · rw [h1, h2, List.reverse_reverse]
    exact List.filter_append_perm _ rows

/-- C10 witness: one future row lands in the upcoming list, one past row in
the past list. -/
theorem reloadFlights_partition_witness :
    (reloadFlightsLists 100
        [⟨"f1", "u", "VABB", "VAPO", none, some 50, 0⟩,
         ⟨"f2", "u", "VAPO", "VABB", none, some 200, 0⟩]).1 =
      [⟨"f2", "u", "VAPO", "VABB", none, some 200, 0⟩] ∧
    (reloadFlightsLists 100
        [⟨"f1", "u", "VABB", "VAPO", none, some 50, 0⟩,
         ⟨"f2", "u", "VAPO", "VABB", none, some 200, 0⟩]).2 =
      [⟨"f1", "u", "VABB", "VAPO", none, some 50, 0⟩] := by
  have h := reloadFlights_partition 100
    [⟨"f1", "u", "VABB", "VAPO", none, some 50, 0⟩,
     ⟨"f2", "u", "VAPO", "VABB", none, some 200, 0⟩]
  exact ⟨h.1.trans (by decide), h.2.1.trans (by decide)⟩

/-- C7: no client store operation is an in-place update; every mutation is
either the `saveFlight` insert or the `deleteFlight` delete-by-id; and
`fetchBriefing` performs no store operation, issuing one fresh POST to the
briefing backend per invocation. -/
theorem flights_store_frame (s : SaveFlightState) (uid delId detailId : String) :
    (∀ op ∈ clientStoreOps s uid delId detailId,
      ∀ tbl rid, op ≠ StoreOp.updateRow tbl rid) ∧
      (∀ op ∈ clientStoreOps s uid delId detailId, isStoreMutation op = true →
        (∃ p, op = StoreOp.insert "flights" p ∧ op ∈ saveFlightOps s) ∨
          op = StoreOp.deleteRow "flights" delId) ∧
      fetchBriefingStoreOps = [] ∧
      fetchBriefingHttp = [⟨"POST", "http://localhost:8000/analyze-route"⟩] := by
  refine ⟨?_, ?_, rfl, rfl⟩
  · intro op hop tbl rid
    cases hsf : saveFlight s with
    | rejected t =>
      simp [clientStoreOps, reloadFlightsOps, saveFlightOps, deleteFlightOps,
        flightDetailLoadOps, fetchBriefingStoreOps, hsf] at hop
      rcases hop with rfl | rfl | rfl <;> simp
    | inserted p =>
      simp [clientStoreOps, reloadFlightsOps, saveFlightOps, deleteFlightOps,
        flightDetailLoadOps, fetchBriefingStoreOps, hsf] at hop
      rcases hop with rfl | rfl | rfl | rfl <;> simp
  · intro op hop hmut
    cases hsf : saveFlight s with
    | rejected t =>
      simp [clientStoreOps, reloadFlightsOps, saveFlightOps, deleteFlightOps,
        flightDetailLoadOps, fetchBriefingStoreOps, hsf] at hop
      rcases hop with rfl | rfl | rfl
      · simp [isStoreMutation] at hmut
      · right; rfl
      · simp [isStoreMutation] at hmut
    | inserted p =>
      simp [clientStoreOps, reloadFlightsOps, saveFlightOps, deleteFlightOps,
        flightDetailLoadOps, fetchBriefingStoreOps, hsf] at hop
      rcases hop with rfl | rfl | rfl | rfl
      · simp [isStoreMutation] at hmut
      · left
        exact ⟨p, rfl, by simp [saveFlightOps, hsf]⟩
      · right; rfl
      · simp [isStoreMutation] at hmut

/-- C7 witness: at a concrete client state, the briefing fetch issues no store
operation and exactly the analyze-route POST. -/
theorem flights_store_frame_witness :
    fetchBriefingStoreOps = [] ∧
      fetchBriefingHttp = [⟨"POST", "http://localhost:8000/analyze-route"⟩] :=
  ⟨(flights_store_frame ⟨none, "", "", [], "", [], []⟩ "user-1" "row-1"
      "flight-1").2.2.1,
    (flights_store_frame ⟨some "u2", "", "", [], "", [], []⟩ "user-2" "row-2"
      "flight-2").2.2.2⟩

/-- C8 counterexample: a 300 ms removal timer pending when the toast list
changes survives the effect cleanup. Reachable run: one toast is shown, the
effect schedules its auto timer, the user dismisses it manually (scheduling
the 300 ms removal), and before that fires the toast list changes, running
the cleanup: the removal timer is still pending. -/
theorem toaster_cleanup_leaves_removal_pending :
    (runToasterCleanup
        (handleDismiss
          (runToasterEffect ⟨[⟨"t1", some "Saved", none, none⟩], [], [], []⟩)
          "t1")).pending = [ToastTimer.removal "t1"] ∧
      (runToasterCleanup
          (handleDismiss
            (runToasterEffect ⟨[⟨"t1", some "Saved", none, none⟩], [], [], []⟩)
            "t1")).pending.isEmpty = false := by
  constructor <;> decide

/-- C8 (amended): per toast in the queue the effect schedules a 3000 ms auto
timer whose firing marks the toast as dismissing and schedules its removal
300 ms later; manual dismissal uses the same 300 ms removal delay; firing a
removal timer removes the toast; and the cleanup run on a toast-list change
or unmount cancels exactly the timers the effect itself scheduled (the
3000 ms auto timers) — a pending 300 ms removal timer is not cancelled. -/
theorem toaster_timers_spec (s : ToasterState) (t : Toast) (tid : String) :
    ((runToasterEffect s).effectTimers =
        s.toasts.map fun u => ToastTimer.auto u.id) ∧
      (t ∈ s.toasts → ToastTimer.auto t.id ∈ (runToasterEffect s).pending) ∧
      timerDelayMs (ToastTimer.auto tid) = 3000 ∧
      timerDelayMs (ToastTimer.removal tid) = 300 ∧
      ((fireAutoTimer s tid).dismissing = tid :: s.dismissing ∧
        ToastTimer.removal tid ∈ (fireAutoTimer s tid).pending) ∧
      ((handleDismiss s tid).dismissing = tid :: s.dismissing ∧
        ToastTimer.removal tid ∈ (handleDismiss s tid).pending) ∧
      ((fireRemovalTimer s tid).toasts =
        s.toasts.filter fun u => !(u.id == tid)) ∧
      (∀ tm : ToastTimer, tm ∈ (runToasterCleanup s).pending ↔
        tm ∈ s.pending ∧ tm ∉ s.effectTimers) := by
  refine ⟨rfl, ?_, rfl, rfl, ⟨rfl, ?_⟩, ⟨rfl, ?_⟩, rfl, ?_⟩
  · intro ht
    simp [runToasterEffect]
    exact Or.inr ⟨t, ht, rfl⟩
  · simp [fireAutoTimer]
  · simp [handleDismiss]
  · intro tm
    simp [runToasterCleanup, List.mem_filter]

/-- C8 witness: with one toast queued, the effect schedules its auto timer,
and after a manual dismissal the removal timer is pending. -/
theorem toaster_timers_spec_witness :
    ToastTimer.auto "t9" ∈
        (runToasterEffect ⟨[⟨"t9", none, none, none⟩], [], [], []⟩).pending ∧
      ToastTimer.removal "t9" ∈
        (handleDismiss ⟨[⟨"t9", none, none, none⟩], [], [], []⟩ "t9").pending :=
  ⟨(toaster_timers_spec ⟨[⟨"t9", none, none, none⟩], [], [], []⟩
      ⟨"t9", none, none, none⟩ "t9").2.1 (by decide),
    (toaster_timers_spec ⟨[⟨"t9", none, none, none⟩], [], [], []⟩
      ⟨"t9", none, none, none⟩ "t9").2.2.2.2.2.1.2⟩

lemma splitWsGo_token (t : List Char) (h : ∀ c ∈ t, isJsSpace c = false) :
    ∀ r acc : List Char, splitWsGo (t ++ r) acc = splitWsGo r (t.reverse ++ acc) := by
  induction t with
  | nil => intro r acc; simp
  | cons c cs ih =>
    intro r acc
    have hc : isJsSpace c = false := h c (List.mem_cons_self c cs)
    rw [List.cons_append, splitWsGo, if_neg (by simp [hc]),
      ih (fun d hd => h d (List.mem_cons_of_mem c hd)) r (c :: acc)]
    simp

lemma splitWsGo_sep (r acc : List Char) :
    splitWsGo (' ' :: r) acc = acc.reverse :: splitWsSkip r := by
  rw [splitWsGo, if_pos (by decide)]

lemma splitWsSkip_eq_go (c : Char) (cs : List Char) (hc : isJsSpace c = false) :
    splitWsSkip (c :: cs) = splitWsGo (c :: cs) [] := by
  rw [splitWsSkip, if_neg (by simp [hc]), splitWsGo, if_neg (by simp [hc])]

lemma joinSpace_cons_head (c : Char) (cs : List Char) (rest : List (List Char)) :
    ∃ tl, joinSpace ((c :: cs) :: rest) = c :: tl := by
  cases rest with
  | nil => exact ⟨cs, rfl⟩
  | cons r rs => exact ⟨cs ++ ' ' :: joinSpace (r :: rs), rfl⟩

lemma joinSpace_ne_nil (ts : List (List Char)) (hne : ts ≠ [])
    (h : ∀ t ∈ ts, t ≠ []) : joinSpace ts ≠ [] := by
  cases ts with
  | nil => exact absurd rfl hne
  | cons t rest =>
    cases rest with
    | nil => simpa [joinSpace] using h t (List.mem_cons_self t [])
    | cons u us => simp [joinSpace]

lemma getLast?_append_right (l₁ l₂ : List Char) (h : l₂ ≠ []) :
    (l₁ ++ l₂).getLast? = l₂.getLast? := by
  induction l₁ with
  | nil => rfl
  | cons a l ih =>
    rw [List.cons_append]
    have hne : l ++ l₂ ≠ [] := by simp [h]
    obtain ⟨c, tl, hct⟩ := List.exists_cons_of_ne_nil hne
    rw [hct, List.getLast?_cons_cons, ← hct, ih]

lemma getLast?_joinSpace (ts : List (List Char)) (h : ∀ t ∈ ts, t ≠ []) :
    ∀ lt, ts.getLast? = some lt → (joinSpace ts).getLast? = lt.getLast? := by
  induction ts with
  | nil => intro lt hlt; simp at hlt
  | cons t rest ih =>
    intro lt hlt
    cases rest with
    | nil =>
      simp at hlt
      subst hlt
      rfl
    | cons u us =>
      rw [List.getLast?_cons_cons] at hlt
      have hj : joinSpace (t :: u :: us) = t ++ ' ' :: joinSpace (u :: us) := rfl
      have hrest : ∀ x ∈ u :: us, x ≠ [] :=
        fun x hx => h x (List.mem_cons_of_mem t hx)
      have hnn : joinSpace (u :: us) ≠ [] :=
        joinSpace_ne_nil (u :: us) (by simp) hrest
      obtain ⟨c, tl, hct⟩ := List.exists_cons_of_ne_nil hnn
      rw [hj, getLast?_append_right _ _ (by simp), hct,
        List.getLast?_cons_cons, ← hct]
      exact ih hrest lt hlt

lemma trimChars_eq_self (l : List Char)
    (hh : ∀ c tl, l = c :: tl → isJsSpace c = false)
    (hl : ∀ c, l.getLast? = some c → isJsSpace c = false) :
    trimChars l = l := by
  cases l with
  | nil => rfl
  | cons c tl =>
    have hc : isJsSpace c = false := hh c tl rfl
    unfold trimChars
    rw [List.dropWhile_cons_of_neg (by simp [hc])]
    have hrev : (c :: tl).reverse ≠ [] := by simp
    obtain ⟨d, rtl, hr⟩ := List.exists_cons_of_ne_nil hrev
    have hd : isJsSpace d = false := by
      apply hl
      rw [← List.head?_reverse, hr]
      rfl
    rw [hr, List.dropWhile_cons_of_neg (by simp [hd]), ← hr, List.reverse_reverse]

lemma splitWsGo_joinSpace (ts : List (List Char)) (hne : ts ≠ [])
    (h : ∀ t ∈ ts, t ≠ [] ∧ ∀ c ∈ t, isJsSpace c = false) :
    splitWsGo (joinSpace ts) [] = ts := by
  induction ts with
  | nil => exact absurd rfl hne
  | cons t rest ih =>
    obtain ⟨ht, htw⟩ := h t (List.mem_cons_self t rest)
    cases rest with
    | nil =>
      show splitWsGo t [] = [t]
      have hstep := splitWsGo_token t htw [] []
      rw [List.append_nil] at hstep
      rw [hstep]
      simp [splitWsGo]
    | cons u us =>
      obtain ⟨hu, huw⟩ := h u (by simp)
      obtain ⟨c, cs, hcu⟩ := List.exists_cons_of_ne_nil hu
      have hj : joinSpace (t :: u :: us) = t ++ ' ' :: joinSpace (u :: us) := rfl
      rw [hj, splitWsGo_token t htw (' ' :: joinSpace (u :: us)) [], splitWsGo_sep]
      have hhead : ∃ tl, joinSpace (u :: us) = c :: tl := by
        rw [hcu]
        exact joinSpace_cons_head c cs us
      obtain ⟨tl, htl⟩ := hhead
      have hcw : isJsSpace c = false := by
        apply huw c
        rw [hcu]
        exact List.mem_cons_self c cs
      rw [htl, splitWsSkip_eq_go c tl hcw, ← htl,
        ih (by simp) (fun x hx => h x (List.mem_cons_of_mem t hx))]
      simp

/-- C9: for a flight whose departure, intermediates and arrival are all
non-empty and whitespace-free, encoding the route as the space-joined string
and re-parsing it (first token departure, last token arrival, middle tokens
intermediates) recovers the original fields. -/
theorem route_roundtrip (dep arr : String) (mids : List String)
    (hdep : dep ≠ "" ∧ ∀ c ∈ dep.data, isJsSpace c = false)
    (harr : arr ≠ "" ∧ ∀ c ∈ arr.data, isJsSpace c = false)
    (hmids : ∀ m ∈ mids, m ≠ "" ∧ ∀ c ∈ m.data, isJsSpace c = false) :
    parseRouteParam (encodeRoute dep mids arr) = (dep, mids, arr) := by
  have hdata : ∀ s : String, s ≠ "" → s.data ≠ [] := by
    intro s hs hd
    apply hs
    cases s with
    | mk d =>
      have hd' : d = [] := hd
      rw [hd']
  have hfil : ((dep :: mids) ++ [arr]).filter (fun t => !(t == "")) =
      (dep :: mids) ++ [arr] := by
    apply List.filter_eq_self.mpr
    intro a ha
    rcases List.mem_append.mp ha with hmem | hmem
    · rcases List.mem_cons.mp hmem with rfl | h2
      · simp [hdep.1]
      · simp [(hmids a h2).1]
    · rcases List.mem_singleton.mp hmem with rfl
      simp [harr.1]
  have htsne : ((dep :: mids) ++ [arr]).map String.data ≠ [] := by simp
  have htst : ∀ t ∈ ((dep :: mids) ++ [arr]).map String.data,
      t ≠ [] ∧ ∀ c ∈ t, isJsSpace c = false := by
    intro t htm
    obtain ⟨u, hu, rfl⟩ := List.mem_map.mp htm
    rcases List.mem_append.mp hu with hmem | hmem
    · rcases List.mem_cons.mp hmem with rfl | h2
      · exact ⟨hdata u hdep.1, hdep.2⟩
      · exact ⟨hdata u (hmids u h2).1, (hmids u h2).2⟩
    · rcases List.mem_singleton.mp hmem with rfl
      exact ⟨hdata u harr.1, harr.2⟩
  obtain ⟨c0, cs0, hc0⟩ := List.exists_cons_of_ne_nil (hdata dep hdep.1)
  have htseq : ((dep :: mids) ++ [arr]).map String.data =
      (c0 :: cs0) :: (mids.map String.data ++ [arr.data]) := by
    simp [hc0]
  have htrim : trimChars (joinSpace (((dep :: mids) ++ [arr]).map String.data)) =
      joinSpace (((dep :: mids) ++ [arr]).map String.data) := by
    apply trimChars_eq_self
    · intro c tl hct
      have hex : ∃ tl0, joinSpace (((dep :: mids) ++ [arr]).map String.data) =
          c0 :: tl0 := by
        rw [htseq]
        exact joinSpace_cons_head c0 cs0 _
      obtain ⟨tl0, htl0⟩ := hex
      have hcc := htl0.symm.trans hct
      have hc0w : isJsSpace c0 = false := by
        apply hdep.2 c0
        rw [hc0]
        exact List.mem_cons_self c0 cs0
      have heq : c0 = c := by
        injection hcc
      rwa [heq] at hc0w
    · intro d hd
      have hlast : (((dep :: mids) ++ [arr]).map String.data).getLast? =
          some arr.data := by
        have hmapsplit : ((dep :: mids) ++ [arr]).map String.data =
            (dep :: mids).map String.data ++ [arr.data] := by simp
        rw [hmapsplit]
        exact List.getLast?_concat _
      have hj := getLast?_joinSpace (((dep :: mids) ++ [arr]).map String.data)
        (fun t ht => (htst t ht).1) arr.data hlast
      rw [hj] at hd
      exact harr.2 d (List.mem_of_mem_getLast? hd)
  have hsplit : splitWsGo (joinSpace (((dep :: mids) ++ [arr]).map String.data)) [] =
      ((dep :: mids) ++ [arr]).map String.data :=
    splitWsGo_joinSpace _ htsne htst
  have hmk : (((dep :: mids) ++ [arr]).map String.data).map
      (fun l => (⟨l⟩ : String)) = (dep :: mids) ++ [arr] := by
    rw [List.map_map]
    have hid : ((fun l => (⟨l⟩ : String)) ∘ String.data) = id := by
      funext u
      cases u with
      | mk d => rfl
    rw [hid, List.map_id]
  have henc : encodeRoute dep mids arr =
      ⟨joinSpace (((dep :: mids) ++ [arr]).map String.data)⟩ := by
    unfold encodeRoute
    rw [hfil]
  have hparts : jsSplitWs (jsTrim (encodeRoute dep mids arr)) =
      (dep :: mids) ++ [arr] := by
    rw [henc]
    show ((splitWsGo
        (trimChars (joinSpace (((dep :: mids) ++ [arr]).map String.data))) []).map
        fun l => (⟨l⟩ : String)) = (dep :: mids) ++ [arr]
    rw [htrim, hsplit, hmk]
  have hpr : parseRouteParam (encodeRoute dep mids arr) =
      ((jsSplitWs (jsTrim (encodeRoute dep mids arr))).headD "",
        ((jsSplitWs (jsTrim (encodeRoute dep mids arr))).drop 1).dropLast,
        (jsSplitWs (jsTrim (encodeRoute dep mids arr))).getLastD "") := rfl
  have hlastd : ((dep :: mids) ++ [arr]).getLastD "" = arr := by
    rw [List.getLastD_eq_getLast?, List.getLast?_concat]
    rfl
  have hdrop : (((dep :: mids) ++ [arr]).drop 1).dropLast = mids := by
    show (mids ++ [arr]).dropLast = mids
    simp
  rw [hpr, hparts, hlastd, hdrop]
  rfl

/-- C9 witness: the round trip at the concrete route VABB → VAAH → VAPO. -/
theorem route_roundtrip_witness :
    parseRouteParam (encodeRoute "VABB" ["VAAH"] "VAPO") =
      ("VABB", ["VAAH"], "VAPO") :=
  route_roundtrip "VABB" "VAPO" ["VAAH"] ⟨by decide, by decide⟩
    ⟨by decide, by decide⟩ (by decide)

/-- C2 witness: a METAR carrying "TEMPO" is flagged by the map page. -/
theorem hasThunderstorm_iff_witness :
    hasThunderstorm (some ⟨"VIDP", some "VIDP 120830Z TEMPO"⟩) = true :=
  (hasThunderstorm_iff (some ⟨"VIDP", some "VIDP 120830Z TEMPO"⟩)).mpr
    ⟨⟨"VIDP", some "VIDP 120830Z TEMPO"⟩, "VIDP 120830Z TEMPO", rfl, rfl,
      Or.inr (Or.inr (by decide))⟩

/-- C1 witness: two future flights 1 second apart — the later one is warned. -/
theorem detectFatigueWarnings_spec_witness :
    "f2" ∈ detectFatigueWarnings 0
        [⟨"f1", "u", "VABB", "VAAH", none, some 1000, 0⟩,
         ⟨"f2", "u", "VAAH", "VAPO", none, some 2000, 0⟩] :=
  ((detectFatigueWarnings_spec 0
      [⟨"f1", "u", "VABB", "VAAH", none, some 1000, 0⟩,
       ⟨"f2", "u", "VAAH", "VAPO", none, some 2000, 0⟩]).2.2 "f2").mpr
    ⟨0, ⟨"f2", "u", "VAAH", "VAPO", none, some 2000, 0⟩,
      ⟨"f1", "u", "VABB", "VAAH", none, some 1000, 0⟩,
      by decide, by decide, rfl, by decide⟩
